import Mathlib

set_option maxHeartbeats 1000000

/-!
Shallow embedding of the ink! ERC-721 token ledger (src/lib.rs, mod erc721).

Modelling conventions:
* AccountId (32-byte id) is abstracted as Nat; only equality is ever used on
  account ids in the contract.  The zero sentinel AccountId::from([0x00; 32])
  is modelled as 0.  TokenId (u32) is likewise a Nat.
* The four StorageHashMap fields become association lists with Rust HashMap
  semantics: get is first-match lookup, insert replaces the value of an
  existing key in place (returning the old value) or appends a fresh entry,
  take/remove_entry deletes the entry.
* u32 counter arithmetic is modelled checked: the increment in
  increase_counter_of aborts (traps) at u32::MAX and the decrement in
  decrease_counter_of aborts at 0, matching the overflow-checked profile the
  crate tests run under.  Option::expect on None likewise aborts.  An abort is
  the Outcome.trap constructor; the host reverts all storage writes of a
  trapped call, while a call that returns Err commits whatever writes it made
  before erroring (ink! 3.x does not revert on Err).
* The caller identity, supplied by the execution environment in the source,
  is threaded through as an explicit first-class argument.
* Events are collected in the order emitted; trapped calls deliver none.
-/

namespace InkErc721

abbrev AccountId := Nat

abbrev TokenId := Nat

/-- AccountId::from([0x00; 32]), the zero sentinel. -/
def zeroAccount : AccountId := 0

/-- Bound of the u32 type used for balances. -/
def U32 : Nat := 2 ^ 32

/-- HashMap::get as first-match association-list lookup. -/
def aget {κ ν : Type} [DecidableEq κ] : List (κ × ν) → κ → Option ν
  | [], _ => none
  | (k, v) :: rest, key => if k = key then some v else aget rest key

/-- HashMap::insert: replace the value at an existing key, else append. -/
def aput {κ ν : Type} [DecidableEq κ] : List (κ × ν) → κ → ν → List (κ × ν)
  | [], key, val => [(key, val)]
  | (k, v) :: rest, key, val =>
    if k = key then (k, val) :: rest else (k, v) :: aput rest key val

/-- HashMap::take / Entry::remove_entry: delete the entry of a key. -/
def aerase {κ ν : Type} [DecidableEq κ] : List (κ × ν) → κ → List (κ × ν)
  | [], _ => []
  | (k, v) :: rest, key => if k = key then rest else (k, v) :: aerase rest key

/-- HashMap::contains_key. -/
def contains_key {κ ν : Type} [DecidableEq κ] (m : List (κ × ν)) (k : κ) : Bool :=
  (aget m k).isSome

/-- Number of entries holding a given value (used for counting tokens per owner). -/
def countVal {κ ν : Type} [DecidableEq ν] : List (κ × ν) → ν → Nat
  | [], _ => 0
  | (_, v) :: rest, w => (if v = w then 1 else 0) + countVal rest w

/-- Key uniqueness, the representation invariant every Rust HashMap enjoys. -/
def keysNodupB {κ ν : Type} [DecidableEq κ] : List (κ × ν) → Bool
  | [] => true
  | (k, _) :: rest => (aget rest k).isNone && keysNodupB rest

/-- The Erc721 storage struct: the four maps. -/
structure Erc721 where
  token_owner : List (TokenId × AccountId)
  token_approvals : List (TokenId × AccountId)
  owned_tokens_count : List (AccountId × Nat)
  operator_approves : List ((AccountId × AccountId) × Bool)
  deriving DecidableEq

/-- The Error enum of the contract. -/
inductive Error
  | NotOwner
  | NotApproved
  | TokenExists
  | TokenNotFound
  | CannotInsert
  | CannotRemove
  | CannotFetchValue
  | NotAllowed
  deriving DecidableEq

/-- The three event shapes emitted by the contract. -/
inductive Event
  | TransferEv (src : Option AccountId) (dst : Option AccountId) (id : TokenId)
  | ApprovalEv (src : AccountId) (dst : AccountId) (id : TokenId)
  | ApprovalForAllEv (owner operator : AccountId) (approved : Bool)
  deriving DecidableEq

/-- Result of an internal helper: success, error return, or abort. -/
inductive Step (α : Type)
  | ok (a : α)
  | err (e : Error)
  | trap
  deriving DecidableEq

/-- Result of a public message: on success the new state and the events
emitted; on an error return the state as mutated so far (ink! 3.x commits
storage writes even on Err) together with the events already emitted; trap
aborts the call and the host reverts every write. -/
inductive Outcome
  | ok (s : Erc721) (events : List Event)
  | err (e : Error) (s : Erc721) (events : List Event)
  | trap
  deriving DecidableEq

/-- Erc721::new. -/
def emptyContract : Erc721 := ⟨[], [], [], []⟩

/-- balance_of_or_zero. -/
def balance_of_or_zero (s : Erc721) (of : AccountId) : Nat :=
  (aget s.owned_tokens_count of).getD 0

/-- balance_of message. -/
def balance_of (s : Erc721) (owner : AccountId) : Nat :=
  balance_of_or_zero s owner

/-- owner_of message. -/
def owner_of (s : Erc721) (id : TokenId) : Option AccountId :=
  aget s.token_owner id

/-- get_approved message. -/
def get_approved (s : Erc721) (id : TokenId) : Option AccountId :=
  aget s.token_approvals id

/-- approved_for_all read helper. -/
def approved_for_all (s : Erc721) (owner operator : AccountId) : Bool :=
  (aget s.operator_approves (owner, operator)).getD false

/-- is_approved_for_all message. -/
def is_approved_for_all (s : Erc721) (owner operator : AccountId) : Bool :=
  approved_for_all s owner operator

/-- exists: get(id).is_some() && contains_key(id). -/
def exists' (s : Erc721) (id : TokenId) : Bool :=
  (aget s.token_owner id).isSome && contains_key s.token_owner id

/-- decrease_counter_of: *hmap.get_mut(of).ok_or(CannotFetchValue)? -= 1.
The subtraction aborts (checked u32 underflow) when the stored count is 0. -/
def decrease_counter_of (counts : List (AccountId × Nat)) (of : AccountId) :
    Step (List (AccountId × Nat)) :=
  match aget counts of with
  | none => .err .CannotFetchValue
  | some v => if v = 0 then .trap else .ok (aput counts of (v - 1))

/-- increase_counter_of: entry.and_modify(|v| *v += 1).or_insert(1).
The addition aborts (checked u32 overflow) at u32::MAX. -/
def increase_counter_of (counts : List (AccountId × Nat)) (of : AccountId) :
    Step (List (AccountId × Nat)) :=
  match aget counts of with
  | none => .ok (aput counts of 1)
  | some v => if U32 ≤ v + 1 then .trap else .ok (aput counts of (v + 1))

/-- add_token_to: vacant entry check, zero-destination check, then counter
increment and ownership insert. -/
def add_token_to (s : Erc721) (dst : AccountId) (id : TokenId) : Step Erc721 :=
  match aget s.token_owner id with
  | some _ => .err .TokenExists
  | none =>
    if dst = zeroAccount then .err .NotAllowed
    else
      match increase_counter_of s.owned_tokens_count dst with
      | .trap => .trap
      | .err e => .err e
      | .ok counts =>
        .ok { s with owned_tokens_count := counts,
                     token_owner := aput s.token_owner id dst }

/-- remove_token_from: occupied entry check, counter decrement (which errors
or aborts first, leaving the entry in place), then entry removal. -/
def remove_token_from (s : Erc721) (src : AccountId) (id : TokenId) : Step Erc721 :=
  match aget s.token_owner id with
  | none => .err .TokenNotFound
  | some _ =>
    match decrease_counter_of s.owned_tokens_count src with
    | .trap => .trap
    | .err e => .err e
    | .ok counts =>
      .ok { s with owned_tokens_count := counts,
                   token_owner := aerase s.token_owner id }

/-- clear_approval: early Ok when no entry, else take the entry. -/
def clear_approval (s : Erc721) (id : TokenId) : Step Erc721 :=
  if (aget s.token_approvals id).isNone then .ok s
  else
    match aget s.token_approvals id with
    | some _ => .ok { s with token_approvals := aerase s.token_approvals id }
    | none => .err .CannotRemove

/-- approved_or_owner. The source computes
src != Some(zero) && (src == owner || src == approvals.get(id) ||
approved_for_all(owner.expect(..), src.expect(..)))
with short-circuit evaluation; reaching the final disjunct with a missing
owner (or missing src) aborts via expect, modelled as none. -/
def approved_or_owner (s : Erc721) (src : Option AccountId) (id : TokenId) :
    Option Bool :=
  if src = some zeroAccount then some false
  else if src = owner_of s id then some true
  else if src = aget s.token_approvals id then some true
  else
    match owner_of s id, src with
    | some o, some f => some (approved_for_all s o f)
    | _, _ => none

/-- transfer_token_from, the internal transfer state machine. -/
def transfer_token_from (s : Erc721) (caller src dst : AccountId)
    (id : TokenId) : Outcome :=
  if !(exists' s id) then .err .TokenNotFound s []
  else
    match approved_or_owner s (some caller) id with
    | none => .trap
    | some false => .err .NotApproved s []
    | some true =>
      match clear_approval s id with
      | .trap => .trap
      | .err e => .err e s []
      | .ok s1 =>
        match remove_token_from s1 src id with
        | .trap => .trap
        | .err e => .err e s1 []
        | .ok s2 =>
          match add_token_to s2 dst id with
          | .trap => .trap
          | .err e => .err e s2 []
          | .ok s3 => .ok s3 [.TransferEv (some src) (some dst) id]

/-- transfer message: src fixed at the caller. -/
def transfer (s : Erc721) (caller dest : AccountId) (id : TokenId) : Outcome :=
  transfer_token_from s caller caller dest id

/-- transfer_from message: src supplied by the caller, unvalidated. -/
def transfer_from (s : Erc721) (caller src dst : AccountId) (id : TokenId) :
    Outcome :=
  transfer_token_from s caller src dst id

/-- mint message: add_token_to(caller, id) then the creation Transfer event. -/
def mint (s : Erc721) (caller : AccountId) (id : TokenId) : Outcome :=
  match add_token_to s caller id with
  | .trap => .trap
  | .err e => .err e s []
  | .ok s1 => .ok s1 [.TransferEv (some zeroAccount) (some caller) id]

/-- burn message: occupied entry check, owner check, counter decrement,
entry removal, destruction Transfer event. -/
def burn (s : Erc721) (caller : AccountId) (id : TokenId) : Outcome :=
  match aget s.token_owner id with
  | none => .err .TokenNotFound s []
  | some o =>
    if o ≠ caller then .err .NotOwner s []
    else
      match decrease_counter_of s.owned_tokens_count caller with
      | .trap => .trap
      | .err e => .err e s []
      | .ok counts =>
        .ok { s with owned_tokens_count := counts,
                     token_owner := aerase s.token_owner id }
           [.TransferEv (some caller) (some zeroAccount) id]

/-- approve_for. Authorization first: owner == Some(caller) ||
approved_for_all(owner.expect(..), caller), where the expect aborts when the
token has no owner and the first disjunct is false.  Then the zero-target
check, then insert (which overwrites any existing entry before the is_some
result is inspected and CannotInsert returned). -/
def approve_for (s : Erc721) (caller dst : AccountId) (id : TokenId) : Outcome :=
  let auth : Option Bool :=
    if owner_of s id = some caller then some true
    else
      match owner_of s id with
      | some o => some (approved_for_all s o caller)
      | none => none
  match auth with
  | none => .trap
  | some false => .err .NotAllowed s []
  | some true =>
    if dst = zeroAccount then .err .NotAllowed s []
    else
      match aget s.token_approvals id with
      | some _ =>
        .err .CannotInsert
          { s with token_approvals := aput s.token_approvals id dst } []
      | none =>
        .ok { s with token_approvals := aput s.token_approvals id dst }
          [.ApprovalEv caller dst id]

/-- approve message. -/
def approve (s : Erc721) (caller dst : AccountId) (id : TokenId) : Outcome :=
  approve_for s caller dst id

/-- approve_for_all. Self-approval check, then the event is emitted
unconditionally, then: overwrite through get_mut when the current value is
true, else insert, treating a returned prior value (an entry storing false)
as CannotInsert even though the insert already overwrote it. -/
def approve_for_all (s : Erc721) (caller dst : AccountId) (approved : Bool) :
    Outcome :=
  if dst = caller then .err .NotAllowed s []
  else
    let ev := Event.ApprovalForAllEv caller dst approved
    if approved_for_all s caller dst then
      match aget s.operator_approves (caller, dst) with
      | none => .err .CannotFetchValue s [ev]
      | some _ =>
        .ok { s with
          operator_approves := aput s.operator_approves (caller, dst) approved }
          [ev]
    else
      match aget s.operator_approves (caller, dst) with
      | some _ =>
        .err .CannotInsert
          { s with
            operator_approves := aput s.operator_approves (caller, dst) approved }
          [ev]
      | none =>
        .ok { s with
          operator_approves := aput s.operator_approves (caller, dst) approved }
          [ev]

/-- set_approval_for_all message. -/
def set_approval_for_all (s : Erc721) (caller dst : AccountId)
    (approved : Bool) : Outcome :=
  approve_for_all s caller dst approved

/-- One public operation together with its caller and arguments. -/
inductive Op
  | mintOp (caller : AccountId) (id : TokenId)
  | burnOp (caller : AccountId) (id : TokenId)
  | approveOp (caller dst : AccountId) (id : TokenId)
  | setApprovalForAllOp (caller dst : AccountId) (approved : Bool)
  | transferOp (caller dest : AccountId) (id : TokenId)
  | transferFromOp (caller src dst : AccountId) (id : TokenId)
  deriving DecidableEq

/-- Dispatch one operation. -/
def runOp (s : Erc721) (op : Op) : Outcome :=
  match op with
  | .mintOp c id => mint s c id
  | .burnOp c id => burn s c id
  | .approveOp c dst id => approve s c dst id
  | .setApprovalForAllOp c dst b => set_approval_for_all s c dst b
  | .transferOp c d id => transfer s c d id
  | .transferFromOp c src dst id => transfer_from s c src dst id

/-- State after one call: Ok and Err both commit their writes, a trap is
reverted by the host. -/
def execOp (s : Erc721) (op : Op) : Erc721 :=
  match runOp s op with
  | .ok s' _ => s'
  | .err _ s' _ => s'
  | .trap => s

/-- Balance consistency between an ownership map and a counts map. -/
def balancedM (owners : List (TokenId × AccountId))
    (counts : List (AccountId × Nat)) : Prop :=
  ∀ a : AccountId, (aget counts a).getD 0 = countVal owners a

/-- Balance consistency of a contract state: every account's balance equals
the number of ownership entries recording it as owner. -/
def balanced (s : Erc721) : Prop :=
  balancedM s.token_owner s.owned_tokens_count

/-- A transfer-type operation is well-aimed when the src argument it will
hand over at remove_token_from (the caller itself, for transfer) is the recorded
owner of the token, or the token does not exist. -/
def goodOp (s : Erc721) (op : Op) : Prop :=
  match op with
  | .transferOp caller _ id =>
    owner_of s id = none ∨ owner_of s id = some caller
  | .transferFromOp _ src _ id =>
    owner_of s id = none ∨ owner_of s id = some src
  | _ => True

/-- Traces from the empty contract all of whose transfer-type operations are
well-aimed. -/
inductive GoodTrace : Erc721 → Prop
  | nil : GoodTrace emptyContract
  | snoc {s : Erc721} {op : Op} : GoodTrace s → goodOp s op →
      GoodTrace (execOp s op)


/-! ### Association-map lemmas -/

theorem aget_aput_self {κ ν : Type} [DecidableEq κ] (m : List (κ × ν)) (k : κ)
    (v : ν) : aget (aput m k v) k = some v := by
  induction m with
  | nil => simp [aput, aget]
  | cons p rest ih =>
    obtain ⟨a, b⟩ := p
    by_cases h : a = k
    · subst h; simp [aput, aget]
    · simp [aput, aget, h, ih]

theorem aget_aput_of_ne {κ ν : Type} [DecidableEq κ] (m : List (κ × ν))
    {k k' : κ} (v : ν) (hne : k ≠ k') :
    aget (aput m k v) k' = aget m k' := by
  induction m with
  | nil => simp [aput, aget, hne]
  | cons p rest ih =>
    obtain ⟨a, b⟩ := p
    by_cases h : a = k
    · subst h; simp [aput, aget, hne]
    · simp only [aput, if_neg h]
      by_cases h' : a = k'
      · simp [aget, h']
      · simp [aget, h', ih]

theorem aget_aerase_of_ne {κ ν : Type} [DecidableEq κ] (m : List (κ × ν))
    {k k' : κ} (hne : k ≠ k') :
    aget (aerase m k) k' = aget m k' := by
  induction m with
  | nil => simp [aerase]
  | cons p rest ih =>
    obtain ⟨a, b⟩ := p
    by_cases h : a = k
    · subst h; simp [aerase, aget, hne]
    · simp only [aerase, if_neg h]
      by_cases h' : a = k'
      · simp [aget, h']
      · simp [aget, h', ih]

theorem aerase_of_aget_none {κ ν : Type} [DecidableEq κ] {m : List (κ × ν)}
    {k : κ} (h : aget m k = none) : aerase m k = m := by
  induction m with
  | nil => simp [aerase]
  | cons p rest ih =>
    obtain ⟨a, b⟩ := p
    by_cases ha : a = k
    · simp [aget, ha] at h
    · simp only [aget, if_neg ha] at h
      simp [aerase, ha, ih h]

theorem aerase_aput_of_none {κ ν : Type} [DecidableEq κ] {m : List (κ × ν)}
    {k : κ} (v : ν) (h : aget m k = none) : aerase (aput m k v) k = m := by
  induction m with
  | nil => simp [aput, aerase]
  | cons p rest ih =>
    obtain ⟨a, b⟩ := p
    by_cases ha : a = k
    · simp [aget, ha] at h
    · simp only [aget, if_neg ha] at h
      simp [aput, aerase, ha, ih h]

theorem aget_aerase_none {κ ν : Type} [DecidableEq κ] {m : List (κ × ν)}
    {k k' : κ} (h : aget m k' = none) : aget (aerase m k) k' = none := by
  induction m with
  | nil => simp [aerase, aget]
  | cons p rest ih =>
    obtain ⟨a, b⟩ := p
    by_cases hk' : a = k'
    · simp [aget, hk'] at h
    · simp only [aget, if_neg hk'] at h
      by_cases ha : a = k
      · simp [aerase, ha, h]
      · simp [aerase, ha, aget, hk', ih h]

theorem aget_aerase_self {κ ν : Type} [DecidableEq κ] {m : List (κ × ν)}
    (k : κ) (hn : keysNodupB m = true) : aget (aerase m k) k = none := by
  induction m with
  | nil => simp [aerase, aget]
  | cons p rest ih =>
    obtain ⟨a, b⟩ := p
    simp only [keysNodupB, Bool.and_eq_true, Option.isNone_iff_eq_none] at hn
    by_cases ha : a = k
    · subst ha; simp [aerase, hn.1]
    · simp [aerase, ha, aget, ih hn.2]

theorem keysNodupB_aput {κ ν : Type} [DecidableEq κ] {m : List (κ × ν)}
    {k : κ} (v : ν) (h : aget m k = none) (hn : keysNodupB m = true) :
    keysNodupB (aput m k v) = true := by
  induction m with
  | nil => simp [aput, keysNodupB, aget]
  | cons p rest ih =>
    obtain ⟨a, b⟩ := p
    simp only [keysNodupB, Bool.and_eq_true, Option.isNone_iff_eq_none] at hn
    by_cases ha : a = k
    · simp [aget, ha] at h
    · simp only [aget, if_neg ha] at h
      simp only [aput, if_neg ha, keysNodupB, Bool.and_eq_true,
        Option.isNone_iff_eq_none]
      exact ⟨by rw [aget_aput_of_ne rest v (fun hkka => ha hkka.symm)]; exact hn.1,
        ih h hn.2⟩

theorem keysNodupB_aerase {κ ν : Type} [DecidableEq κ] {m : List (κ × ν)}
    (k : κ) (hn : keysNodupB m = true) : keysNodupB (aerase m k) = true := by
  induction m with
  | nil => simp [aerase, keysNodupB]
  | cons p rest ih =>
    obtain ⟨a, b⟩ := p
    simp only [keysNodupB, Bool.and_eq_true, Option.isNone_iff_eq_none] at hn
    by_cases ha : a = k
    · simp [aerase, ha, hn.2]
    · simp only [aerase, if_neg ha, keysNodupB, Bool.and_eq_true,
        Option.isNone_iff_eq_none]
      exact ⟨aget_aerase_none hn.1, ih hn.2⟩

theorem countVal_aput_none {κ ν : Type} [DecidableEq κ] [DecidableEq ν]
    {m : List (κ × ν)} {k : κ} (w v : ν) (h : aget m k = none) :
    countVal (aput m k w) v = countVal m v + (if w = v then 1 else 0) := by
  induction m with
  | nil => simp [aput, countVal]
  | cons p rest ih =>
    obtain ⟨a, b⟩ := p
    by_cases ha : a = k
    · simp [aget, ha] at h
    · simp only [aget, if_neg ha] at h
      simp only [aput, if_neg ha, countVal, ih h]
      omega

theorem countVal_aerase_some {κ ν : Type} [DecidableEq κ] [DecidableEq ν]
    {m : List (κ × ν)} {k : κ} {w : ν} (v : ν) (h : aget m k = some w) :
    countVal (aerase m k) v + (if w = v then 1 else 0) = countVal m v := by
  induction m with
  | nil => simp [aget] at h
  | cons p rest ih =>
    obtain ⟨a, b⟩ := p
    by_cases ha : a = k
    · simp only [aget, if_pos ha, Option.some.injEq] at h
      subst h
      simp only [aerase, if_pos ha, countVal]
      omega
    · simp only [aget, if_neg ha] at h
      simp only [aerase, if_neg ha, countVal]
      have := ih h
      omega

theorem countVal_pos {κ ν : Type} [DecidableEq κ] [DecidableEq ν]
    {m : List (κ × ν)} {k : κ} {w : ν} (h : aget m k = some w) :
    1 ≤ countVal m w := by
  induction m with
  | nil => simp [aget] at h
  | cons p rest ih =>
    obtain ⟨a, b⟩ := p
    by_cases ha : a = k
    · simp only [aget, if_pos ha, Option.some.injEq] at h
      have hcv : countVal ((a, b) :: rest) w = 1 + countVal rest w := by
        simp [countVal, h]
      omega
    · simp only [aget, if_neg ha] at h
      have := ih h
      simp only [countVal]
      omega

/-! ### Balance-consistency lemmas at the level of the two maps -/

theorem balancedM_insert {o : List (TokenId × AccountId)}
    {c : List (AccountId × Nat)} (hb : balancedM o c) {id : TokenId}
    (a : AccountId) (ho : aget o id = none) :
    balancedM (aput o id a) (aput c a ((aget c a).getD 0 + 1)) := by
  intro x
  by_cases hx : x = a
  · subst hx
    rw [aget_aput_self, countVal_aput_none x x ho]
    simp [hb x]
  · rw [aget_aput_of_ne c _ (fun h => hx h.symm),
      countVal_aput_none a x ho, if_neg (fun h => hx h.symm)]
    simp [hb x]

theorem balancedM_erase {o : List (TokenId × AccountId)}
    {c : List (AccountId × Nat)} (hb : balancedM o c) {id : TokenId}
    {a : AccountId} {v : Nat} (ho : aget o id = some a)
    (hc : aget c a = some v) :
    balancedM (aerase o id) (aput c a (v - 1)) := by
  intro x
  by_cases hx : x = a
  · subst hx
    rw [aget_aput_self]
    have h1 := countVal_aerase_some x ho
    have h2 := hb x
    rw [hc] at h2
    simp only [Option.getD_some] at h2
    simp at h1
    simp only [Option.getD_some]
    omega
  · rw [aget_aput_of_ne c _ (fun h => hx h.symm)]
    have h1 := countVal_aerase_some x ho
    have h2 := hb x
    rw [if_neg (fun h => hx h.symm)] at h1
    omega

theorem balancedM_owner_pos {o : List (TokenId × AccountId)}
    {c : List (AccountId × Nat)} (hb : balancedM o c) {id : TokenId}
    {a : AccountId} (ho : aget o id = some a) :
    ∃ v, aget c a = some v ∧ 1 ≤ v := by
  have hpos := countVal_pos ho
  have hx := hb a
  cases hc : aget c a with
  | none => rw [hc] at hx; simp at hx; omega
  | some v =>
    refine ⟨v, rfl, ?_⟩
    rw [hc] at hx
    simp only [Option.getD_some] at hx
    omega


/-! ### Structural facts about the operations -/

theorem clear_approval_eq (s : Erc721) (id : TokenId) :
    clear_approval s id =
      .ok { s with token_approvals := aerase s.token_approvals id } := by
  unfold clear_approval
  cases h : aget s.token_approvals id with
  | none =>
    rw [aerase_of_aget_none h]
    simp
  | some w => simp [h]

theorem approved_or_owner_isSome {s : Erc721} {id : TokenId} {o : AccountId}
    (ho : owner_of s id = some o) (c : AccountId) :
    ∃ b, approved_or_owner s (some c) id = some b := by
  unfold approved_or_owner
  rw [ho]
  by_cases h1 : (some c : Option AccountId) = some zeroAccount
  · exact ⟨false, by rw [if_pos h1]⟩
  · rw [if_neg h1]
    by_cases h2 : (some c : Option AccountId) = some o
    · exact ⟨true, by rw [if_pos h2]⟩
    · rw [if_neg h2]
      by_cases h3 : (some c : Option AccountId) = aget s.token_approvals id
      · exact ⟨true, by rw [if_pos h3]⟩
      · rw [if_neg h3]
        exact ⟨approved_for_all s o c, rfl⟩

/-- The representation and consistency invariant carried along traces:
ownership keys are unique and every balance matches the owned-token count. -/
def Inv (s : Erc721) : Prop :=
  keysNodupB s.token_owner = true ∧ balanced s

theorem inv_of_same {s s' : Erc721} (hI : Inv s)
    (ho : s'.token_owner = s.token_owner)
    (hc : s'.owned_tokens_count = s.owned_tokens_count) : Inv s' := by
  refine ⟨by rw [ho]; exact hI.1, ?_⟩
  unfold balanced balancedM
  rw [ho, hc]
  exact hI.2

theorem inv_add_token_to {s s' : Erc721} {dst : AccountId} {id : TokenId}
    (hI : Inv s) (h : add_token_to s dst id = .ok s') : Inv s' := by
  cases hg : aget s.token_owner id with
  | some w => simp [add_token_to, hg] at h
  | none =>
    by_cases hz : dst = zeroAccount
    · simp [add_token_to, hg, hz] at h
    · cases hc : aget s.owned_tokens_count dst with
      | none =>
        simp [add_token_to, increase_counter_of, hg, hz, hc] at h
        subst h
        refine ⟨keysNodupB_aput dst hg hI.1, ?_⟩
        have hbal := balancedM_insert hI.2 dst hg
        rw [hc] at hbal
        simpa using hbal
      | some v =>
        by_cases hov : U32 ≤ v + 1
        · simp [add_token_to, increase_counter_of, hg, hz, hc, hov] at h
        · simp [add_token_to, increase_counter_of, hg, hz, hc, hov] at h
          subst h
          refine ⟨keysNodupB_aput dst hg hI.1, ?_⟩
          have hbal := balancedM_insert hI.2 dst hg
          rw [hc] at hbal
          simpa using hbal

theorem inv_execOp_mint {s : Erc721} (hI : Inv s) (c : AccountId)
    (id : TokenId) : Inv (execOp s (.mintOp c id)) := by
  cases h : add_token_to s c id with
  | trap => simpa [execOp, runOp, mint, h] using hI
  | err e => simpa [execOp, runOp, mint, h] using hI
  | ok s1 =>
    have := inv_add_token_to hI h
    simpa [execOp, runOp, mint, h] using this

theorem inv_execOp_burn {s : Erc721} (hI : Inv s) (c : AccountId)
    (id : TokenId) : Inv (execOp s (.burnOp c id)) := by
  cases hg : aget s.token_owner id with
  | none => simpa [execOp, runOp, burn, hg] using hI
  | some o =>
    by_cases hoc : o = c
    · subst hoc
      cases hc : aget s.owned_tokens_count o with
      | none =>
        simpa [execOp, runOp, burn, hg, decrease_counter_of, hc] using hI
      | some v =>
        by_cases hv : v = 0
        · simpa [execOp, runOp, burn, hg, decrease_counter_of, hc, hv] using hI
        · have hnew : Inv ⟨aerase s.token_owner id, s.token_approvals,
              aput s.owned_tokens_count o (v - 1), s.operator_approves⟩ :=
            ⟨keysNodupB_aerase id hI.1, balancedM_erase hI.2 hg hc⟩
          simpa [execOp, runOp, burn, hg, decrease_counter_of, hc, hv]
            using hnew
    · simpa [execOp, runOp, burn, hg, hoc] using hI

theorem inv_execOp_approve {s : Erc721} (hI : Inv s) (c dst : AccountId)
    (id : TokenId) : Inv (execOp s (.approveOp c dst id)) := by
  have hsame : Inv ⟨s.token_owner, aput s.token_approvals id dst,
      s.owned_tokens_count, s.operator_approves⟩ :=
    inv_of_same hI rfl rfl
  cases ho : owner_of s id with
  | none => simpa [execOp, runOp, approve, approve_for, ho] using hI
  | some o =>
    by_cases hoc : o = c
    · subst hoc
      by_cases hz : dst = zeroAccount
      · simpa [execOp, runOp, approve, approve_for, ho, hz] using hI
      · cases ha : aget s.token_approvals id with
        | some w =>
          simpa [execOp, runOp, approve, approve_for, ho, hz, ha] using hsame
        | none =>
          simpa [execOp, runOp, approve, approve_for, ho, hz, ha] using hsame
    · cases hb : approved_for_all s o c with
      | false =>
        simpa [execOp, runOp, approve, approve_for, ho, hoc, hb] using hI
      | true =>
        by_cases hz : dst = zeroAccount
        · simpa [execOp, runOp, approve, approve_for, ho, hoc, hb, hz]
            using hI
        · cases ha : aget s.token_approvals id with
          | some w =>
            simpa [execOp, runOp, approve, approve_for, ho, hoc, hb, hz, ha]
              using hsame
          | none =>
            simpa [execOp, runOp, approve, approve_for, ho, hoc, hb, hz, ha]
              using hsame

theorem inv_execOp_setApproval {s : Erc721} (hI : Inv s) (c dst : AccountId)
    (b : Bool) : Inv (execOp s (.setApprovalForAllOp c dst b)) := by
  have hsame : Inv ⟨s.token_owner, s.token_approvals, s.owned_tokens_count,
      aput s.operator_approves (c, dst) b⟩ :=
    inv_of_same hI rfl rfl
  by_cases h1 : dst = c
  · simpa [execOp, runOp, set_approval_for_all, approve_for_all, h1] using hI
  · cases h2 : approved_for_all s c dst with
    | true =>
      cases h3 : aget s.operator_approves (c, dst) with
      | none =>
        simpa [execOp, runOp, set_approval_for_all, approve_for_all, h1, h2,
          h3] using hI
      | some w =>
        simpa [execOp, runOp, set_approval_for_all, approve_for_all, h1, h2,
          h3] using hsame
    | false =>
      cases h3 : aget s.operator_approves (c, dst) with
      | none =>
        simpa [execOp, runOp, set_approval_for_all, approve_for_all, h1, h2,
          h3] using hsame
      | some w =>
        simpa [execOp, runOp, set_approval_for_all, approve_for_all, h1, h2,
          h3] using hsame

theorem inv_transfer_result {s : Erc721} (hI : Inv s)
    (caller src dst : AccountId) (id : TokenId)
    (hg : owner_of s id = none ∨ owner_of s id = some src) :
    Inv (match transfer_token_from s caller src dst id with
         | .ok s' _ => s'
         | .err _ s' _ => s'
         | .trap => s) := by
  cases hg with
  | inl hnone =>
    have hex : exists' s id = false := by
      simp [exists', contains_key, show aget s.token_owner id = none
        from hnone]
    simpa [transfer_token_from, hex] using hI
  | inr hown =>
    have hown' : aget s.token_owner id = some src := hown
    have hex : exists' s id = true := by
      simp [exists', contains_key, hown']
    obtain ⟨b, hb⟩ := approved_or_owner_isSome hown caller
    obtain ⟨v, hv, hv1⟩ := balancedM_owner_pos hI.2 hown
    cases b with
    | false => simpa [transfer_token_from, hex, hb] using hI
    | true =>
      have hvne : ¬ v = 0 := by omega
      have h1 : clear_approval s id = Step.ok (⟨s.token_owner,
          aerase s.token_approvals id, s.owned_tokens_count,
          s.operator_approves⟩ : Erc721) :=
        clear_approval_eq s id
      have h2 : remove_token_from (⟨s.token_owner,
          aerase s.token_approvals id, s.owned_tokens_count,
          s.operator_approves⟩ : Erc721) src id =
          Step.ok (⟨aerase s.token_owner id, aerase s.token_approvals id,
            aput s.owned_tokens_count src (v - 1),
            s.operator_approves⟩ : Erc721) := by
        simp [remove_token_from, decrease_counter_of, hown', hv, hvne]
      have hI2 : Inv (⟨aerase s.token_owner id, aerase s.token_approvals id,
          aput s.owned_tokens_count src (v - 1),
          s.operator_approves⟩ : Erc721) :=
        ⟨keysNodupB_aerase id hI.1, balancedM_erase hI.2 hown' hv⟩
      cases h3 : add_token_to (⟨aerase s.token_owner id,
          aerase s.token_approvals id, aput s.owned_tokens_count src (v - 1),
          s.operator_approves⟩ : Erc721) dst id with
      | trap => simpa [transfer_token_from, hex, hb, h1, h2, h3] using hI
      | err e => simpa [transfer_token_from, hex, hb, h1, h2, h3] using hI2
      | ok s3 =>
        have := inv_add_token_to hI2 h3
        simpa [transfer_token_from, hex, hb, h1, h2, h3] using this

theorem inv_execOp {s : Erc721} (op : Op) (hI : Inv s) (hg : goodOp s op) :
    Inv (execOp s op) := by
  cases op with
  | mintOp c id => exact inv_execOp_mint hI c id
  | burnOp c id => exact inv_execOp_burn hI c id
  | approveOp c dst id => exact inv_execOp_approve hI c dst id
  | setApprovalForAllOp c dst b => exact inv_execOp_setApproval hI c dst b
  | transferOp c d id => exact inv_transfer_result hI c c d id hg
  | transferFromOp c src dst id => exact inv_transfer_result hI c src dst id hg

theorem inv_emptyContract : Inv emptyContract := by
  constructor
  · rfl
  · intro a
    rfl

theorem inv_of_goodTrace {s : Erc721} (h : GoodTrace s) : Inv s := by
  induction h with
  | nil => exact inv_emptyContract
  | snoc ht hg ih => exact inv_execOp _ ih hg


/-! ### Further characterization helpers -/

theorem approved_or_owner_owner {s : Erc721} {id : TokenId} {c : AccountId}
    (ho : owner_of s id = some c) (hz : c ≠ zeroAccount) :
    approved_or_owner s (some c) id = some true := by
  unfold approved_or_owner
  rw [if_neg (by simp [hz]), if_pos (by rw [ho])]

theorem approved_or_owner_false {s : Erc721} {id : TokenId} {c o : AccountId}
    (ho : owner_of s id = some o) (h1 : c ≠ o)
    (h2 : aget s.token_approvals id ≠ some c)
    (h3 : approved_for_all s o c = false) :
    approved_or_owner s (some c) id = some false := by
  unfold approved_or_owner
  by_cases hz : c = zeroAccount
  · rw [if_pos (by simp [hz, zeroAccount])]
  · rw [if_neg (by simp [hz]), if_neg (by rw [ho]; simp [h1]),
      if_neg (by intro hcontra; exact h2 hcontra.symm), ho]
    simp [h3]

/-! ### Claim theorems -/

/-- Successful mint characterization, shared by several claims. -/
theorem mint_ok {s : Erc721} {caller : AccountId} {id : TokenId}
    (h : owner_of s id = none) (hz : caller ≠ zeroAccount)
    (hlt : balance_of s caller + 1 < U32) :
    mint s caller id = .ok
      ⟨aput s.token_owner id caller, s.token_approvals,
       aput s.owned_tokens_count caller (balance_of s caller + 1),
       s.operator_approves⟩
      [.TransferEv (some zeroAccount) (some caller) id] := by
  cases hc : aget s.owned_tokens_count caller with
  | none =>
    simp [mint, add_token_to, increase_counter_of,
      show aget s.token_owner id = none from h, hz, hc, balance_of,
      balance_of_or_zero]
  | some v =>
    have hvb : balance_of s caller = v := by
      simp [balance_of, balance_of_or_zero, hc]
    have hov : ¬ U32 ≤ v + 1 := by omega
    simp [mint, add_token_to, increase_counter_of,
      show aget s.token_owner id = none from h, hz, hc, hov, balance_of,
      balance_of_or_zero]

/-- Claim C3 (code_bug): the spec requires every public operation to return
an explicit result and never terminate abruptly, and in particular that
approve on a token with no owner returns an error and that a balance
decrement of a stored zero count returns an error.  The code instead aborts
in both situations: approve evaluates owner.expect on None, and
decrease_counter_of underflows the checked u32 subtraction.  At the empty
ledger, approve(2, 1) called by account 1 traps, and at a ledger where
account 1 owns token 7 with a stored balance of 0, burn(7) by 1 traps. -/
theorem claim3_abrupt_termination :
    approve emptyContract 1 2 1 = .trap ∧
    burn ⟨[(7, 1)], [], [(1, 0)], []⟩ 1 7 = .trap := by
  decide

/-- Claim C6 (corrected): mint(id) returns TokenExists when id already has an
owner, NotAllowed when the caller is the zero sentinel, and otherwise, when
the caller's balance is below u32::MAX, succeeds, recording the caller as
owner and incrementing the caller's balance (creating the entry at 1 when
absent) while leaving approvals and operator approvals unchanged.  With the
balance at u32::MAX the increment aborts instead of succeeding. -/
theorem claim6_mint (s : Erc721) (caller : AccountId) (id : TokenId) :
    (∀ o, owner_of s id = some o →
      mint s caller id = .err .TokenExists s []) ∧
    (owner_of s id = none → caller = zeroAccount →
      mint s caller id = .err .NotAllowed s []) ∧
    (owner_of s id = none → caller ≠ zeroAccount →
      balance_of s caller + 1 < U32 →
      mint s caller id = .ok
        ⟨aput s.token_owner id caller, s.token_approvals,
         aput s.owned_tokens_count caller (balance_of s caller + 1),
         s.operator_approves⟩
        [.TransferEv (some zeroAccount) (some caller) id]) := by
  refine ⟨?_, ?_, ?_⟩
  · intro o ho
    simp [mint, add_token_to, show aget s.token_owner id = some o from ho]
  · intro h hz
    simp [mint, add_token_to, show aget s.token_owner id = none from h, hz]
  · intro h hz hlt
    exact mint_ok h hz hlt

/-- Claim C6 counterexample: at a ledger whose only balance entry stores
u32::MAX for account 1, minting the fresh token 0 by account 1 aborts with a
checked-arithmetic overflow instead of succeeding, although the token is
fresh and the caller is not the zero sentinel. -/
theorem claim6_counterexample :
    owner_of ⟨[], [], [(1, 4294967295)], []⟩ 0 = none ∧
    (1 : AccountId) ≠ zeroAccount ∧
    mint ⟨[], [], [(1, 4294967295)], []⟩ 1 0 = .trap := by
  decide

/-- Claim C6 witness: the amended mint success case at the empty contract. -/
theorem claim6_witness :
    owner_of emptyContract 7 = none ∧ (1 : AccountId) ≠ zeroAccount ∧
    balance_of emptyContract 1 + 1 < U32 ∧
    mint emptyContract 1 7 = .ok ⟨[(7, 1)], [], [(1, 1)], []⟩
      [.TransferEv (some zeroAccount) (some 1) 7] :=
  ⟨rfl, by decide, by decide,
    (claim6_mint emptyContract 1 7).2.2 rfl (by decide) (by decide)⟩

/-- Claim C7 (confirmed): burn(id) returns TokenNotFound when id has no
recorded owner, NotOwner when the caller is not the recorded owner, and on
success removes the ownership entry and decrements the caller's balance by
one while leaving the approval map, including any stale entry for the burned
token, and the operator approvals untouched. -/
theorem claim7_burn (s : Erc721) (caller : AccountId) (id : TokenId) :
    (owner_of s id = none → burn s caller id = .err .TokenNotFound s []) ∧
    (∀ o, owner_of s id = some o → o ≠ caller →
      burn s caller id = .err .NotOwner s []) ∧
    (∀ s' evs, burn s caller id = .ok s' evs →
      s'.token_owner = aerase s.token_owner id ∧
      balance_of s' caller + 1 = balance_of s caller ∧
      s'.token_approvals = s.token_approvals ∧
      s'.operator_approves = s.operator_approves) := by
  refine ⟨?_, ?_, ?_⟩
  · intro h
    simp [burn, show aget s.token_owner id = none from h]
  · intro o ho hne
    simp [burn, show aget s.token_owner id = some o from ho, hne]
  · intro s' evs h
    cases hg : aget s.token_owner id with
    | none => simp [burn, hg] at h
    | some o =>
      by_cases hoc : o = caller
      · subst hoc
        cases hc : aget s.owned_tokens_count o with
        | none => simp [burn, hg, decrease_counter_of, hc] at h
        | some v =>
          by_cases hv : v = 0
          · simp [burn, hg, decrease_counter_of, hc, hv] at h
          · simp [burn, hg, decrease_counter_of, hc, hv] at h
            obtain ⟨hs, hevs⟩ := h
            refine ⟨by rw [← hs], ?_, by rw [← hs], by rw [← hs]⟩
            rw [← hs]
            simp [balance_of, balance_of_or_zero, aget_aput_self, hc]
            omega
      · simp [burn, hg, hoc] at h

/-- Claim C7 witness: a concrete successful burn at the one-token ledger
reached by minting token 1 to account 4. -/
theorem claim7_witness :
    (⟨[], [], [(4, 0)], []⟩ : Erc721).token_owner =
        aerase (⟨[(1, 4)], [], [(4, 1)], []⟩ : Erc721).token_owner 1 ∧
    balance_of (⟨[], [], [(4, 0)], []⟩ : Erc721) 4 + 1 =
        balance_of (⟨[(1, 4)], [], [(4, 1)], []⟩ : Erc721) 4 :=
  ⟨((claim7_burn ⟨[(1, 4)], [], [(4, 1)], []⟩ 4 1).2.2
      ⟨[], [], [(4, 0)], []⟩ [.TransferEv (some 4) (some 0) 1]
      (by decide)).1,
   ((claim7_burn ⟨[(1, 4)], [], [(4, 1)], []⟩ 4 1).2.2
      ⟨[], [], [(4, 0)], []⟩ [.TransferEv (some 4) (some 0) 1]
      (by decide)).2.1⟩


/-- Claim C5 (corrected): for every token that has a recorded owner, a
transfer attempted by a caller that is neither the owner, nor the approved
account for the token, nor an approved operator of the owner, returns
NotApproved with all four maps unchanged and no event; for a token with no
recorded owner the transfer instead returns TokenNotFound (likewise with no
state change). -/
theorem claim5_unauthorized_transfer (s : Erc721) (caller src dst o : AccountId)
    (id : TokenId) (ho : owner_of s id = some o) (h1 : caller ≠ o)
    (h2 : aget s.token_approvals id ≠ some caller)
    (h3 : approved_for_all s o caller = false) :
    transfer_from s caller src dst id = .err .NotApproved s [] ∧
    transfer s caller dst id = .err .NotApproved s [] := by
  have hex : exists' s id = true := by
    simp [exists', contains_key, show aget s.token_owner id = some o from ho]
  have hao := approved_or_owner_false ho h1 h2 h3
  constructor <;>
    simp [transfer, transfer_from, transfer_token_from, hex, hao]

/-- Claim C5 counterexample: at the empty ledger token 7 has no owner and a
transfer of it by account 1 (which is neither owner, approved, nor operator)
returns TokenNotFound, not the NotApproved the claim requires for every
state and every token. -/
theorem claim5_counterexample :
    transfer_from emptyContract 1 2 3 7 =
      .err .TokenNotFound emptyContract [] ∧
    Error.TokenNotFound ≠ Error.NotApproved := by
  decide

/-- Claim C5 witness: a concrete unauthorized transfer attempt. -/
theorem claim5_witness :
    owner_of (⟨[(1, 4)], [], [(4, 1)], []⟩ : Erc721) 1 = some 4 ∧
    (5 : AccountId) ≠ 4 ∧
    transfer_from ⟨[(1, 4)], [], [(4, 1)], []⟩ 5 4 6 1 =
      .err .NotApproved ⟨[(1, 4)], [], [(4, 1)], []⟩ [] :=
  ⟨rfl, by decide,
    (claim5_unauthorized_transfer ⟨[(1, 4)], [], [(4, 1)], []⟩ 5 4 6 4 1 rfl
      (by decide) (by decide) rfl).1⟩

/-- Claim C8 (corrected): for a token with a recorded owner, approve fails
NotAllowed when the caller is neither the owner nor an approved operator for
the owner, fails NotAllowed when the target is the zero sentinel, fails
CannotInsert when an approval entry already exists (though the entry has
then already been overwritten with the new target), and otherwise succeeds,
recording the target as the approved account.  On a token with no recorded
owner approve aborts instead of returning NotAllowed. -/
theorem claim8_approve (s : Erc721) (caller dst o : AccountId) (id : TokenId)
    (ho : owner_of s id = some o) :
    (caller ≠ o → approved_for_all s o caller = false →
      approve s caller dst id = .err .NotAllowed s []) ∧
    ((caller = o ∨ approved_for_all s o caller = true) → dst = zeroAccount →
      approve s caller dst id = .err .NotAllowed s []) ∧
    (∀ w, (caller = o ∨ approved_for_all s o caller = true) →
      dst ≠ zeroAccount → aget s.token_approvals id = some w →
      approve s caller dst id = .err .CannotInsert
        ⟨s.token_owner, aput s.token_approvals id dst, s.owned_tokens_count,
         s.operator_approves⟩ []) ∧
    ((caller = o ∨ approved_for_all s o caller = true) → dst ≠ zeroAccount →
      aget s.token_approvals id = none →
      approve s caller dst id = .ok
        ⟨s.token_owner, aput s.token_approvals id dst, s.owned_tokens_count,
         s.operator_approves⟩ [.ApprovalEv caller dst id]) := by
  refine ⟨?_, ?_, ?_, ?_⟩
  · intro h1 h3
    have hoc : ¬ o = caller := fun hh => h1 hh.symm
    simp [approve, approve_for, ho, hoc, h3]
  · intro hauth hz
    by_cases hco : o = caller
    · subst hco
      simp [approve, approve_for, ho, hz]
    · rcases hauth with hco' | happ
      · exact absurd hco'.symm hco
      · simp [approve, approve_for, ho, hco, happ, hz]
  · intro w hauth hz ha
    by_cases hco : o = caller
    · subst hco
      simp [approve, approve_for, ho, hz, ha]
    · rcases hauth with hco' | happ
      · exact absurd hco'.symm hco
      · simp [approve, approve_for, ho, hco, happ, hz, ha]
  · intro hauth hz ha
    by_cases hco : o = caller
    · subst hco
      simp [approve, approve_for, ho, hz, ha]
    · rcases hauth with hco' | happ
      · exact absurd hco'.symm hco
      · simp [approve, approve_for, ho, hco, happ, hz, ha]

/-- Claim C8 counterexample: at the empty ledger token 9 has no owner, and
approve by account 3 (not an owner, so the claim demands NotAllowed) aborts
via expect instead of returning an error. -/
theorem claim8_counterexample :
    owner_of emptyContract 9 = none ∧
    approve emptyContract 3 4 9 = .trap := by
  decide

/-- Claim C8 witness: a concrete successful approval by the owner. -/
theorem claim8_witness :
    owner_of (⟨[(5, 2)], [], [(2, 1)], []⟩ : Erc721) 5 = some 2 ∧
    approve ⟨[(5, 2)], [], [(2, 1)], []⟩ 2 6 5 =
      .ok ⟨[(5, 2)], [(5, 6)], [(2, 1)], []⟩ [.ApprovalEv 2 6 5] :=
  ⟨rfl,
    (claim8_approve ⟨[(5, 2)], [], [(2, 1)], []⟩ 2 6 2 5 rfl).2.2.2
      (Or.inl rfl) (by decide) rfl⟩

/-- Claim C9 (corrected): set_approval_for_all returns NotAllowed when the
operator equals the caller; otherwise it emits the event and writes approved
over the entry for (caller, operator), succeeding when the entry was absent
or stored true, but returning CannotInsert when the entry stored false (the
value is nevertheless overwritten).  After every non-NotAllowed call
is_approved_for_all(caller, operator) returns approved. -/
theorem claim9_set_approval_for_all (s : Erc721) (caller oprtr : AccountId)
    (b : Bool) :
    (oprtr = caller →
      set_approval_for_all s caller oprtr b = .err .NotAllowed s []) ∧
    (oprtr ≠ caller → aget s.operator_approves (caller, oprtr) = some true →
      set_approval_for_all s caller oprtr b = .ok
        ⟨s.token_owner, s.token_approvals, s.owned_tokens_count,
         aput s.operator_approves (caller, oprtr) b⟩
        [.ApprovalForAllEv caller oprtr b] ∧
      is_approved_for_all
        ⟨s.token_owner, s.token_approvals, s.owned_tokens_count,
         aput s.operator_approves (caller, oprtr) b⟩ caller oprtr = b) ∧
    (oprtr ≠ caller → aget s.operator_approves (caller, oprtr) = none →
      set_approval_for_all s caller oprtr b = .ok
        ⟨s.token_owner, s.token_approvals, s.owned_tokens_count,
         aput s.operator_approves (caller, oprtr) b⟩
        [.ApprovalForAllEv caller oprtr b] ∧
      is_approved_for_all
        ⟨s.token_owner, s.token_approvals, s.owned_tokens_count,
         aput s.operator_approves (caller, oprtr) b⟩ caller oprtr = b) ∧
    (oprtr ≠ caller → aget s.operator_approves (caller, oprtr) = some false →
      set_approval_for_all s caller oprtr b = .err .CannotInsert
        ⟨s.token_owner, s.token_approvals, s.owned_tokens_count,
         aput s.operator_approves (caller, oprtr) b⟩
        [.ApprovalForAllEv caller oprtr b] ∧
      is_approved_for_all
        ⟨s.token_owner, s.token_approvals, s.owned_tokens_count,
         aput s.operator_approves (caller, oprtr) b⟩ caller oprtr = b) := by
  refine ⟨?_, ?_, ?_, ?_⟩
  · intro h1
    simp [set_approval_for_all, approve_for_all, h1]
  · intro h1 h2
    refine ⟨?_, ?_⟩
    · simp [set_approval_for_all, approve_for_all, approved_for_all, h1, h2]
    · simp [is_approved_for_all, approved_for_all, aget_aput_self]
  · intro h1 h2
    refine ⟨?_, ?_⟩
    · simp [set_approval_for_all, approve_for_all, approved_for_all, h1, h2]
    · simp [is_approved_for_all, approved_for_all, aget_aput_self]
  · intro h1 h2
    refine ⟨?_, ?_⟩
    · simp [set_approval_for_all, approve_for_all, approved_for_all, h1, h2]
    · simp [is_approved_for_all, approved_for_all, aget_aput_self]

/-- Claim C9 counterexample: with an existing operator entry storing false
(reached by granting and then revoking), granting again returns
CannotInsert, not the success the claim asserts for every non-self call,
even though the event was emitted and the entry overwritten. -/
theorem claim9_counterexample :
    (2 : AccountId) ≠ 1 ∧
    set_approval_for_all ⟨[], [], [], [((1, 2), false)]⟩ 1 2 true =
      .err .CannotInsert ⟨[], [], [], [((1, 2), true)]⟩
        [.ApprovalForAllEv 1 2 true] := by
  decide

/-- Claim C9 witness: a concrete first-time grant at the empty ledger. -/
theorem claim9_witness :
    (2 : AccountId) ≠ 1 ∧
    set_approval_for_all emptyContract 1 2 true =
      .ok ⟨[], [], [], [((1, 2), true)]⟩ [.ApprovalForAllEv 1 2 true] ∧
    is_approved_for_all (⟨[], [], [], [((1, 2), true)]⟩ : Erc721) 1 2 = true :=
  ⟨by decide,
    (claim9_set_approval_for_all emptyContract 1 2 true).2.2.1
      (by decide) rfl⟩

/-- Claim C10 (corrected): for a caller other than the zero sentinel whose
stored balance is below u32::MAX and a token with no recorded owner, mint
followed immediately by burn both succeed and the round trip is observably a
no-op: the token again has no owner, the caller's balance is back to its
original value, and the approval and operator maps are unchanged.  With the
balance at u32::MAX the mint aborts instead. -/
theorem claim10_mint_then_burn (s : Erc721) (c : AccountId) (t : TokenId)
    (hc : c ≠ zeroAccount) (ht : owner_of s t = none)
    (hb : balance_of s c + 1 < U32) :
    ∃ s1 ev1 s2 ev2, mint s c t = .ok s1 ev1 ∧ burn s1 c t = .ok s2 ev2 ∧
      owner_of s2 t = none ∧ balance_of s2 c = balance_of s c ∧
      s2.token_approvals = s.token_approvals ∧
      s2.operator_approves = s.operator_approves := by
  have hmint := mint_ok ht hc hb
  have hero : aerase (aput s.token_owner t c) t = s.token_owner :=
    aerase_aput_of_none c ht
  have hburn : burn (⟨aput s.token_owner t c, s.token_approvals,
      aput s.owned_tokens_count c (balance_of s c + 1),
      s.operator_approves⟩ : Erc721) c t = .ok
      ⟨aerase (aput s.token_owner t c) t, s.token_approvals,
       aput (aput s.owned_tokens_count c (balance_of s c + 1)) c
         (balance_of s c + 1 - 1), s.operator_approves⟩
      [.TransferEv (some c) (some zeroAccount) t] := by
    simp [burn, decrease_counter_of, aget_aput_self]
  refine ⟨_, _, _, _, hmint, hburn, ?_, ?_, rfl, rfl⟩
  · show aget (aerase (aput s.token_owner t c) t) t = none
    rw [hero]
    exact ht
  · show (aget (aput (aput s.owned_tokens_count c (balance_of s c + 1)) c
        (balance_of s c + 1 - 1)) c).getD 0 = balance_of s c
    rw [aget_aput_self]
    simp

/-- Claim C10 counterexample: with the caller's stored balance at u32::MAX
and token 5 fresh, the mint of the mint-burn round trip aborts on the
balance increment, so the two operations do not both succeed. -/
theorem claim10_counterexample :
    (1 : AccountId) ≠ zeroAccount ∧
    owner_of ⟨[], [], [(1, 4294967295)], []⟩ 5 = none ∧
    mint ⟨[], [], [(1, 4294967295)], []⟩ 1 5 = .trap := by
  decide

/-- Claim C10 witness: the round trip at the empty ledger. -/
theorem claim10_witness :
    (2 : AccountId) ≠ zeroAccount ∧
    (∃ s1 ev1 s2 ev2,
      mint emptyContract 2 3 = .ok s1 ev1 ∧ burn s1 2 3 = .ok s2 ev2 ∧
      owner_of s2 3 = none ∧ balance_of s2 2 = balance_of emptyContract 2 ∧
      s2.token_approvals = emptyContract.token_approvals ∧
      s2.operator_approves = emptyContract.operator_approves) :=
  ⟨by decide, claim10_mint_then_burn emptyContract 2 3 (by decide) rfl
    (by decide)⟩


/-- Claim C2 (corrected): starting from the empty ledger, balance
consistency (every account's balance_of equals the number of ownership
entries naming it as owner, the ownership keys staying duplicate-free)
holds after every operation of every sequence, provided each transfer-type
call hands remove_token_from the token's recorded owner (the caller, for
transfer; the src argument, for transfer_from).  With an arbitrary src
argument, as the unamended claim allows, it is broken. -/
theorem claim2_balance_consistency (s : Erc721) (h : GoodTrace s) :
    (∀ a, balance_of s a = countVal s.token_owner a) ∧
    keysNodupB s.token_owner = true :=
  ⟨(inv_of_goodTrace h).2, (inv_of_goodTrace h).1⟩

/-- Claim C2 counterexample: account 1 mints token 10, account 2 mints
token 20, then account 1 (authorized as owner of 10) calls transfer_from
with src = 2; the call succeeds and afterwards balance_of(1) = 1 although
account 1 owns no token. -/
theorem claim2_counterexample :
    balance_of (execOp (execOp (execOp emptyContract (.mintOp 1 10))
        (.mintOp 2 20)) (.transferFromOp 1 2 3 10)) 1 = 1 ∧
    countVal (execOp (execOp (execOp emptyContract (.mintOp 1 10))
        (.mintOp 2 20)) (.transferFromOp 1 2 3 10)).token_owner 1 = 0 := by
  decide

/-- Claim C2 witness: balance consistency after one well-aimed operation. -/
theorem claim2_witness :
    balance_of (execOp emptyContract (.mintOp 1 5)) 1 =
      countVal (execOp emptyContract (.mintOp 1 5)).token_owner 1 :=
  (claim2_balance_consistency (execOp emptyContract (.mintOp 1 5))
    (GoodTrace.snoc GoodTrace.nil (by trivial))).1 1

/-- Claim C4 (corrected): when A is the recorded owner of t, A is not the
zero sentinel, A's balance entry is present with value at least 1, B is
neither the zero sentinel nor A itself, B's balance is below u32::MAX, and
the ownership and approval maps are valid (duplicate-free keys), a transfer
of t to B called by A succeeds, and afterwards owner_of(t) = B,
balance_of(A) has decreased by 1, balance_of(B) has increased by 1, and
get_approved(t) is none.  Each added hypothesis is forced: without the
balance entry the transfer fails CannotFetchValue, with A the zero sentinel
it fails NotApproved (approved_or_owner rejects a zero caller first), and
for B = A the balances cannot both change. -/
theorem claim4_transfer (s : Erc721) (A B : AccountId) (t : TokenId) (n : Nat)
    (hA : owner_of s t = some A) (hAz : A ≠ zeroAccount)
    (hn : aget s.owned_tokens_count A = some n) (hn1 : 1 ≤ n)
    (hB : B ≠ zeroAccount) (hBA : B ≠ A)
    (hBof : balance_of s B + 1 < U32)
    (hnodupO : keysNodupB s.token_owner = true)
    (hnodupA : keysNodupB s.token_approvals = true) :
    (∃ s' evs, transfer s A B t = .ok s' evs) ∧
    (∀ s' evs, transfer s A B t = .ok s' evs →
      evs = [.TransferEv (some A) (some B) t] ∧
      owner_of s' t = some B ∧
      balance_of s' A + 1 = balance_of s A ∧
      balance_of s' B = balance_of s B + 1 ∧
      get_approved s' t = none) := by
  have hex : exists' s t = true := by
    simp [exists', contains_key, show aget s.token_owner t = some A from hA]
  have hao := approved_or_owner_owner hA hAz
  have hvne : ¬ n = 0 := by omega
  have hrm : remove_token_from (⟨s.token_owner, aerase s.token_approvals t,
      s.owned_tokens_count, s.operator_approves⟩ : Erc721) A t = Step.ok
      (⟨aerase s.token_owner t, aerase s.token_approvals t,
        aput s.owned_tokens_count A (n - 1), s.operator_approves⟩ :
        Erc721) := by
    simp [remove_token_from, decrease_counter_of,
      show aget s.token_owner t = some A from hA, hn, hvne]
  have hvac : aget (aerase s.token_owner t) t = (none : Option AccountId) :=
    aget_aerase_self t hnodupO
  have hgetB : aget (aput s.owned_tokens_count A (n - 1)) B =
      aget s.owned_tokens_count B :=
    aget_aput_of_ne _ _ (fun hh => hBA hh.symm)
  have hadd : add_token_to (⟨aerase s.token_owner t,
      aerase s.token_approvals t, aput s.owned_tokens_count A (n - 1),
      s.operator_approves⟩ : Erc721) B t = Step.ok
      (⟨aput (aerase s.token_owner t) t B, aerase s.token_approvals t,
        aput (aput s.owned_tokens_count A (n - 1)) B (balance_of s B + 1),
        s.operator_approves⟩ : Erc721) := by
    cases hcB : aget s.owned_tokens_count B with
    | none =>
      simp [add_token_to, increase_counter_of, hvac, hB, hgetB, hcB,
        balance_of, balance_of_or_zero]
    | some m =>
      have hmb : balance_of s B = m := by
        simp [balance_of, balance_of_or_zero, hcB]
      have hov : ¬ U32 ≤ m + 1 := by omega
      simp [add_token_to, increase_counter_of, hvac, hB, hgetB, hcB, hov,
        balance_of, balance_of_or_zero]
  have hcomp : transfer s A B t = .ok
      (⟨aput (aerase s.token_owner t) t B, aerase s.token_approvals t,
        aput (aput s.owned_tokens_count A (n - 1)) B (balance_of s B + 1),
        s.operator_approves⟩ : Erc721)
      [.TransferEv (some A) (some B) t] := by
    simp [transfer, transfer_token_from, hex, hao, clear_approval_eq, hrm,
      hadd]
  refine ⟨⟨_, _, hcomp⟩, ?_⟩
  intro s' evs h
  rw [hcomp] at h
  injection h with hs hevs
  subst hs
  subst hevs
  refine ⟨rfl, ?_, ?_, ?_, ?_⟩
  · show aget (aput (aerase s.token_owner t) t B) t = some B
    exact aget_aput_self _ _ _
  · show (aget (aput (aput s.owned_tokens_count A (n - 1)) B
        (balance_of s B + 1)) A).getD 0 + 1 = balance_of s A
    rw [aget_aput_of_ne _ _ hBA, aget_aput_self]
    have hba : balance_of s A = n := by
      simp [balance_of, balance_of_or_zero, hn]
    simp only [Option.getD_some, hba]
    omega
  · show (aget (aput (aput s.owned_tokens_count A (n - 1)) B
        (balance_of s B + 1)) B).getD 0 = balance_of s B + 1
    rw [aget_aput_self]
    rfl
  · show aget (aerase s.token_approvals t) t = none
    exact aget_aerase_self t hnodupA

/-- Claim C4 counterexample: two states in which the claim's transfer fails
instead of succeeding.  Account 5 is the recorded owner of token 1 but has
no balance entry, and its transfer to account 6 fails CannotFetchValue; the
zero sentinel is the recorded owner of token 1 with a balance entry of 5,
and its transfer to account 2 fails NotApproved, forcing the amended
hypotheses that A's balance entry is present and that A is not the zero
sentinel. -/
theorem claim4_counterexample :
    owner_of (⟨[(1, 5)], [], [], []⟩ : Erc721) 1 = some 5 ∧
    (6 : AccountId) ≠ zeroAccount ∧
    transfer ⟨[(1, 5)], [], [], []⟩ 5 6 1 =
      .err .CannotFetchValue ⟨[(1, 5)], [], [], []⟩ [] ∧
    owner_of (⟨[(1, 0)], [], [(0, 5)], []⟩ : Erc721) 1 = some zeroAccount ∧
    (2 : AccountId) ≠ zeroAccount ∧
    transfer ⟨[(1, 0)], [], [(0, 5)], []⟩ 0 2 1 =
      .err .NotApproved ⟨[(1, 0)], [], [(0, 5)], []⟩ [] := by
  decide

/-- Claim C4 witness: a concrete successful owner transfer with its balance
and approval postconditions. -/
theorem claim4_witness :
    (1 : AccountId) ≠ zeroAccount ∧
    owner_of (⟨[(3, 4)], [], [(1, 1), (4, 6)], []⟩ : Erc721) 3 = some 4 ∧
    balance_of (⟨[(3, 4)], [], [(1, 1), (4, 6)], []⟩ : Erc721) 1 + 1 =
      balance_of (⟨[(3, 1)], [(3, 9)], [(1, 2), (4, 5)], []⟩ : Erc721) 1 :=
  ⟨by decide,
    ((claim4_transfer ⟨[(3, 1)], [(3, 9)], [(1, 2), (4, 5)], []⟩ 1 4 3 2 rfl
        (by decide) rfl (by decide) (by decide) (by decide) (by decide) rfl
        rfl).2 ⟨[(3, 4)], [], [(1, 1), (4, 6)], []⟩
      [.TransferEv (some 1) (some 4) 3] (by decide)).2.1,
    ((claim4_transfer ⟨[(3, 1)], [(3, 9)], [(1, 2), (4, 5)], []⟩ 1 4 3 2 rfl
        (by decide) rfl (by decide) (by decide) (by decide) (by decide) rfl
        rfl).2 ⟨[(3, 4)], [], [(1, 1), (4, 6)], []⟩
      [.TransferEv (some 1) (some 4) 3] (by decide)).2.2.1⟩


/-- Errors of add_token_to are limited to TokenExists and NotAllowed. -/
theorem add_token_to_err {s : Erc721} {dst : AccountId} {id : TokenId}
    {e : Error} (h : add_token_to s dst id = .err e) :
    e = .TokenExists ∨ e = .NotAllowed := by
  cases hg : aget s.token_owner id with
  | some w =>
    simp [add_token_to, hg] at h
    exact Or.inl h.symm
  | none =>
    by_cases hz : dst = zeroAccount
    · simp [add_token_to, hg, hz] at h
      exact Or.inr h.symm
    · cases hc : aget s.owned_tokens_count dst with
      | none => simp [add_token_to, increase_counter_of, hg, hz, hc] at h
      | some v =>
        by_cases hov : U32 ≤ v + 1
        · simp [add_token_to, increase_counter_of, hg, hz, hc, hov] at h
        · simp [add_token_to, increase_counter_of, hg, hz, hc, hov] at h

/-- A transfer that errors with TokenNotFound or NotApproved has done so at
one of the two initial checks, before any state write or event. -/
theorem transfer_err_early {s s' : Erc721} {caller src dst : AccountId}
    {id : TokenId} {e : Error} {evs : List Event}
    (he : e = .TokenNotFound ∨ e = .NotApproved)
    (h : transfer_token_from s caller src dst id = .err e s' evs) :
    s' = s ∧ evs = [] := by
  cases hg : aget s.token_owner id with
  | none =>
    have hex : exists' s id = false := by simp [exists', contains_key, hg]
    simp [transfer_token_from, hex] at h
    exact ⟨h.2.1.symm, h.2.2⟩
  | some o =>
    have hex : exists' s id = true := by simp [exists', contains_key, hg]
    obtain ⟨b, hb⟩ :=
      approved_or_owner_isSome (show owner_of s id = some o from hg) caller
    cases b with
    | false =>
      simp [transfer_token_from, hex, hb] at h
      exact ⟨h.2.1.symm, h.2.2⟩
    | true =>
      cases hc : aget s.owned_tokens_count src with
      | none =>
        simp [transfer_token_from, hex, hb, clear_approval_eq,
          remove_token_from, decrease_counter_of, hg, hc] at h
        rcases he with rfl | rfl <;> simp at h
      | some v =>
        by_cases hv : v = 0
        · simp [transfer_token_from, hex, hb, clear_approval_eq,
            remove_token_from, decrease_counter_of, hg, hc, hv] at h
        · cases hadd : add_token_to (⟨aerase s.token_owner id,
              aerase s.token_approvals id,
              aput s.owned_tokens_count src (v - 1),
              s.operator_approves⟩ : Erc721) dst id with
          | trap =>
            simp [transfer_token_from, hex, hb, clear_approval_eq,
              remove_token_from, decrease_counter_of, hg, hc, hv, hadd] at h
          | ok s3 =>
            simp [transfer_token_from, hex, hb, clear_approval_eq,
              remove_token_from, decrease_counter_of, hg, hc, hv, hadd] at h
          | err e2 =>
            simp [transfer_token_from, hex, hb, clear_approval_eq,
              remove_token_from, decrease_counter_of, hg, hc, hv, hadd] at h
            rcases add_token_to_err hadd with rfl | rfl <;>
              rcases he with rfl | rfl <;> simp at h

/-- Claim C1 (corrected): mint and burn fail atomically (an error leaves the
four maps unchanged and emits nothing), as do transfer when it fails
TokenNotFound or NotApproved and approve and set_approval_for_all when they
fail NotAllowed.  But transfer of an existing token to the zero sentinel by
its owner fails NotAllowed only after clearing the token's approval,
removing its ownership entry and decrementing the owner's balance; and
approve on a token that already has an approval entry overwrites that entry
with the new target and then fails CannotInsert. -/
theorem claim1_atomicity (s : Erc721) (c src dst : AccountId) (id : TokenId)
    (b : Bool) :
    (∀ e s' evs, mint s c id = .err e s' evs → s' = s ∧ evs = []) ∧
    (∀ e s' evs, burn s c id = .err e s' evs → s' = s ∧ evs = []) ∧
    (∀ s' evs, transfer_from s c src dst id = .err .TokenNotFound s' evs →
      s' = s ∧ evs = []) ∧
    (∀ s' evs, transfer_from s c src dst id = .err .NotApproved s' evs →
      s' = s ∧ evs = []) ∧
    (∀ s' evs, approve s c dst id = .err .NotAllowed s' evs →
      s' = s ∧ evs = []) ∧
    (∀ s' evs, set_approval_for_all s c dst b = .err .NotAllowed s' evs →
      s' = s ∧ evs = []) ∧
    (∀ o v, owner_of s id = some o → o ≠ zeroAccount →
      aget s.owned_tokens_count o = some v → 1 ≤ v →
      keysNodupB s.token_owner = true →
      transfer s o zeroAccount id = .err .NotAllowed
        ⟨aerase s.token_owner id, aerase s.token_approvals id,
         aput s.owned_tokens_count o (v - 1), s.operator_approves⟩ []) ∧
    (∀ o w, owner_of s id = some o →
      (c = o ∨ approved_for_all s o c = true) → dst ≠ zeroAccount →
      aget s.token_approvals id = some w →
      approve s c dst id = .err .CannotInsert
        ⟨s.token_owner, aput s.token_approvals id dst, s.owned_tokens_count,
         s.operator_approves⟩ []) := by
  refine ⟨?_, ?_, ?_, ?_, ?_, ?_, ?_, ?_⟩
  · intro e s' evs h
    cases ha : add_token_to s c id with
    | trap => simp [mint, ha] at h
    | ok s1 => simp [mint, ha] at h
    | err e1 =>
      simp [mint, ha] at h
      exact ⟨h.2.1.symm, h.2.2⟩
  · intro e s' evs h
    cases hg : aget s.token_owner id with
    | none =>
      simp [burn, hg] at h
      exact ⟨h.2.1.symm, h.2.2⟩
    | some o =>
      by_cases hoc : o = c
      · subst hoc
        cases hc2 : aget s.owned_tokens_count o with
        | none =>
          simp [burn, hg, decrease_counter_of, hc2] at h
          exact ⟨h.2.1.symm, h.2.2⟩
        | some v =>
          by_cases hv : v = 0
          · simp [burn, hg, decrease_counter_of, hc2, hv] at h
          · simp [burn, hg, decrease_counter_of, hc2, hv] at h
      · simp [burn, hg, hoc] at h
        exact ⟨h.2.1.symm, h.2.2⟩
  · intro s' evs h
    exact transfer_err_early (Or.inl rfl) h
  · intro s' evs h
    exact transfer_err_early (Or.inr rfl) h
  · intro s' evs h
    cases ho : owner_of s id with
    | none => simp [approve, approve_for, ho] at h
    | some o =>
      by_cases hco : o = c
      · subst hco
        by_cases hz : dst = zeroAccount
        · simp [approve, approve_for, ho, hz] at h
          exact ⟨h.1.symm, h.2⟩
        · cases ha : aget s.token_approvals id with
          | some w => simp [approve, approve_for, ho, hz, ha] at h
          | none => simp [approve, approve_for, ho, hz, ha] at h
      · cases hb : approved_for_all s o c with
        | false =>
          simp [approve, approve_for, ho, hco, hb] at h
          exact ⟨h.1.symm, h.2⟩
        | true =>
          by_cases hz : dst = zeroAccount
          · simp [approve, approve_for, ho, hco, hb, hz] at h
            exact ⟨h.1.symm, h.2⟩
          · cases ha : aget s.token_approvals id with
            | some w =>
              simp [approve, approve_for, ho, hco, hb, hz, ha] at h
            | none =>
              simp [approve, approve_for, ho, hco, hb, hz, ha] at h
  · intro s' evs h
    by_cases h1 : dst = c
    · simp [set_approval_for_all, approve_for_all, h1] at h
      exact ⟨h.1.symm, h.2⟩
    · cases h2 : aget s.operator_approves (c, dst) with
      | none =>
        simp [set_approval_for_all, approve_for_all, approved_for_all, h1,
          h2] at h
      | some bb =>
        cases bb with
        | true =>
          simp [set_approval_for_all, approve_for_all, approved_for_all, h1,
            h2] at h
        | false =>
          simp [set_approval_for_all, approve_for_all, approved_for_all, h1,
            h2] at h
  · intro o v ho hoz hv hv1 hnodup
    have hex : exists' s id = true := by
      simp [exists', contains_key, show aget s.token_owner id = some o
        from ho]
    have hao := approved_or_owner_owner ho hoz
    have hvac : aget (aerase s.token_owner id) id = (none : Option AccountId) :=
      aget_aerase_self id hnodup
    have hvne : ¬ v = 0 := by omega
    simp [transfer, transfer_token_from, hex, hao, clear_approval_eq,
      remove_token_from, decrease_counter_of,
      show aget s.token_owner id = some o from ho, hv, hvne, add_token_to,
      hvac, zeroAccount]
  · intro o w ho hauth hz ha
    by_cases hco : o = c
    · subst hco
      simp [approve, approve_for, ho, hz, ha]
    · rcases hauth with hco' | happ
      · exact absurd hco'.symm hco
      · simp [approve, approve_for, ho, hco, happ, hz, ha]

/-- Claim C1 counterexample: the owner of token 1 transfers it to the zero
sentinel; the call returns Err(NotAllowed) yet the ownership entry is gone
and the owner's balance was decremented, so the failing call did mutate the
maps. -/
theorem claim1_counterexample :
    transfer ⟨[(1, 4)], [], [(4, 1)], []⟩ 4 0 1 =
      .err .NotAllowed ⟨[], [], [(4, 0)], []⟩ [] ∧
    (⟨[], [], [(4, 0)], []⟩ : Erc721) ≠ ⟨[(1, 4)], [], [(4, 1)], []⟩ := by
  decide

/-- Claim C1 witness: the transfer-to-zero conjunct at a concrete ledger
where account 7 owns token 2 with an outstanding approval to 9. -/
theorem claim1_witness :
    owner_of (⟨[(2, 7)], [(2, 9)], [(7, 3)], []⟩ : Erc721) 2 = some 7 ∧
    transfer ⟨[(2, 7)], [(2, 9)], [(7, 3)], []⟩ 7 0 2 =
      .err .NotAllowed ⟨[], [], [(7, 2)], []⟩ [] :=
  ⟨rfl,
    (claim1_atomicity ⟨[(2, 7)], [(2, 9)], [(7, 3)], []⟩ 7 0 0 2
        true).2.2.2.2.2.2.1 7 3 rfl (by decide) rfl (by decide) rfl⟩

end InkErc721
